import Mathlib

/-!
Verification of the Tron transfer-orchestrator module (`src/crypto/tron.ts`).

The module is a thin, stateless orchestrator over a remote indexing API
(TronGrid) and an external wallet library.  We embed it shallowly:

* JavaScript numbers are modelled as `ℚ`; where the source performs
  float64 arithmetic (the multiplication in `parseTrx`, the `parseFloat`
  in `sunToTrx`) the exact result is rounded with `fl`, the IEEE-754
  round-to-nearest-even at 53 significant bits, so those definitions
  compute bit-exactly what the program computes; `BigNumber` arithmetic
  and decimal rendering are exact; base-unit balances are integers and
  are modelled as `Int`;
* the JavaScript `| 0` bitwise truncation is modelled as truncation toward
  zero followed by reduction into the signed 32-bit range (`ToInt32`);
* every remote call and wallet-library call is answered by a field of an
  `Env` record (the oracle), and each orchestration function is a pure
  function of the `Env`, returning its `Except` result together with a
  trace of the externally visible actions it performed, in order.
-/

namespace Tron

/-- JavaScript `ToInt32` applied to an integral value: reduce modulo
`2 ^ 32 = 4294967296` into the signed range `[-2147483648, 2147483648)`.
This is the effect of `| 0` on an integer. -/
def toInt32 (t : Int) : Int :=
  if t % 4294967296 < 2147483648 then t % 4294967296
  else t % 4294967296 - 4294967296

/-- Truncation of a rational toward zero: the integral part JavaScript
extracts before the modular reduction of `ToInt32`. -/
def ratTrunc (q : ℚ) : Int :=
  if 0 ≤ q then ⌊q⌋ else ⌈q⌉

/-- Round a rational to the nearest integer, ties to even: the rounding
used by IEEE-754 round-to-nearest. -/
def roundNE (q : ℚ) : Int :=
  if q - ⌊q⌋ < 1 / 2 then ⌊q⌋
  else if 1 / 2 < q - ⌊q⌋ then ⌊q⌋ + 1
  else if ⌊q⌋ % 2 = 0 then ⌊q⌋ else ⌊q⌋ + 1

/-- Binary exponent of a positive rational (the floor of its base-2
logarithm), computed by shifting into the interval `[1, 2)`; structural
fuel recursion, with enough fuel for the whole float64 exponent range. -/
def ilog2Aux : Nat → ℚ → Int
  | 0, _ => 0
  | fuel + 1, q =>
    if q < 1 then ilog2Aux fuel (q * 2) - 1
    else if 2 ≤ q then ilog2Aux fuel (q / 2) + 1
    else 0

/-- Binary exponent of a rational, for the normal float64 range. -/
def ilog2 (q : ℚ) : Int := ilog2Aux 1100 q

/-- Exact value of the IEEE-754 float64 (binary64) number nearest to a
rational: round the significand to 53 bits, to nearest, ties to even.
Exponent overflow and subnormals are not modelled; every value handled by
this module lies well inside the normal range, where this is exactly the
semantics of JavaScript numbers. -/
def fl (q : ℚ) : ℚ :=
  if q = 0 then 0
  else if 0 < q then
    (roundNE (q * 2 ^ (52 - ilog2 q)) : ℚ) * 2 ^ (ilog2 q - 52)
  else
    -((roundNE (-q * 2 ^ (52 - ilog2 (-q))) : ℚ) * 2 ^ (ilog2 (-q) - 52))

/-- Model of `parseTrx` (src/crypto/tron.ts:78-80): `(trx * Math.pow(10, 6)) | 0`.
The multiplication is JavaScript float64 arithmetic, modelled by rounding
the exact product with `fl`; `| 0` then truncates toward zero and reduces
into the signed 32-bit range. -/
def parseTrx (trx : ℚ) : Int :=
  toInt32 (ratTrunc (fl (trx * 10 ^ 6)))

/-- Model of `sunToTrx` (src/crypto/tron.ts:82-85): the `BigNumber`
division by `10 ^ 6` and `toFixed()` produce the exact decimal quotient;
`parseFloat` then returns the nearest float64, modelled by `fl`. -/
def sunToTrx (sun : Int) : ℚ :=
  fl ((sun : ℚ) / 10 ^ 6)

/-- Latest-block snapshot returned by `getLatestBlock`
(src/crypto/tron.ts:54-66). -/
structure Block where
  hash : String
  timestamp : Int
  number : Int
deriving DecidableEq

/-- One TRC20 entry of an account record: the remote API returns a
one-key object `{contractAddress: value}`; the value string is read with
`parseInt`, so we model the entry as its contract address together with
the parsed integer value (src/crypto/tron.ts:161-166). -/
structure TokenEntry where
  contractAddress : String
  value : Int
deriving DecidableEq

/-- An account record of the `v1/accounts/{address}` response: the native
balance in sun and the TRC20 token list (src/crypto/tron.ts:130-137,
150-157). -/
structure AccountRecord where
  balance : Int
  trc20 : List TokenEntry
deriving DecidableEq

/-- The `{sun, trx}` amount pair returned by the balance queries. -/
structure Amount where
  sun : Int
  trx : ℚ
deriving DecidableEq

/-- The `{data, success, error}` shape of the transaction-history
endpoints (src/crypto/tron.ts:247-252); the records themselves are opaque
and modelled as strings. -/
structure TxListResponse where
  data : List String
  success : Bool
  error : String
deriving DecidableEq

/-- Opaque response of `wallet/broadcasthex`, returned unchanged by
`broadcastTransaction` (src/crypto/tron.ts:68-76). -/
structure Receipt where
  raw : String
deriving DecidableEq

/-- A transaction built by the external wallet library:
`wallet.generateTransaction(to, amount, 'TRX', latestBlock)` or
`wallet.transferTRC20Token(contractAddress, to, amount, latestBlock)`.
The signer's address stands in for the wallet the library call was made
on. -/
inductive Tx where
  | native (sender dest : String) (amount : Int) (block : Block)
  | trc20 (sender contractAddress dest : String) (amount : ℚ) (block : Block)
deriving DecidableEq

/-- Externally visible actions of an orchestration call, recorded in
order. -/
inductive Event where
  | fetchBlock
  | fetchAccount (address : String)
  | construct (tx : Tx)
  | broadcast (tx : Tx)
deriving DecidableEq

/-- Holds exactly on the broadcast of a native transaction. -/
def Event.isNativeBroadcast : Event → Bool
  | .broadcast (Tx.native ..) => true
  | _ => false

/-- Holds exactly on construction or broadcast of a native transaction. -/
def Event.isNativeAction : Event → Bool
  | .construct (Tx.native ..) => true
  | .broadcast (Tx.native ..) => true
  | _ => false

/-- Holds exactly on construction or broadcast of a TRC20 transaction. -/
def Event.isTrc20Action : Event → Bool
  | .construct (Tx.trc20 ..) => true
  | .broadcast (Tx.trc20 ..) => true
  | _ => false

/-- Errors thrown by the module: the `'Insufficient balance'` guard and
the `throw new Error(error)` on a `success: false` remote response. -/
inductive TronError where
  | insufficientBalance
  | remoteAPI (msg : String)
deriving DecidableEq

/-- The oracle answering every wallet-library and remote-API request:
`addrOfKey` is `tron.fromTronPrivateKey(key).getAddress()`, `latestBlock`
the `wallet/getnowblock` response, `accounts` the `data` field of
`v1/accounts/{address}`, `accountTxs` and `trc20Txs` the two
transaction-history responses, and `broadcastResult` the
`wallet/broadcasthex` response for a given transaction. -/
structure Env where
  addrOfKey : String → String
  latestBlock : Block
  accounts : String → List AccountRecord
  accountTxs : String → TxListResponse
  trc20Txs : String → TxListResponse
  broadcastResult : Tx → Receipt

/-- Model of `getTrxBalance` (src/crypto/tron.ts:126-142): fetch the account
records; an empty list yields `{sun: 0, trx: 0}`, otherwise the first
record's balance together with its display form. -/
def getTrxBalance (env : Env) (address : String) : Amount :=
  match env.accounts address with
  | [] => ⟨0, 0⟩
  | acct :: _ => ⟨acct.balance, sunToTrx acct.balance⟩

/-- Model of `getTRC20Balance` (src/crypto/tron.ts:144-175): fetch the account
records; an empty list or an empty token list yields zero; otherwise scan
the first record's token list for the first entry whose contract address
is exactly the requested one and return its parsed value together with
the value divided by `10 ^ 6` (the `decimals` argument is not used in the
conversion); no match yields zero. -/
def getTRC20Balance (env : Env) (address contractAddress : String)
    (decimals : Nat) : Amount :=
  match env.accounts address with
  | [] => ⟨0, 0⟩
  | acct :: _ =>
    if acct.trc20.isEmpty then ⟨0, 0⟩
    else
      match acct.trc20.find? (fun t => t.contractAddress == contractAddress) with
      | some t => ⟨t.value, (t.value : ℚ) / 10 ^ 6⟩
      | none => ⟨0, 0⟩

/-- Model of `sendTrx` (src/crypto/tron.ts:177-205): derive the sender address,
convert the display amount with `parseTrx`, fetch the latest block, fetch
the sender's balance, throw `Insufficient balance` when
`amount >= balance`, otherwise construct the native transaction and
broadcast it. -/
def sendTrx (env : Env) (privateKey dest : String) (trx : ℚ) :
    List Event × Except TronError Receipt :=
  let address := env.addrOfKey privateKey
  let amount := parseTrx trx
  let balance := (getTrxBalance env address).sun
  if balance ≤ amount then
    ([.fetchBlock, .fetchAccount address], .error .insufficientBalance)
  else
    let tx := Tx.native address dest amount env.latestBlock
    ([.fetchBlock, .fetchAccount address, .construct tx, .broadcast tx],
      .ok (env.broadcastResult tx))

/-- Model of `getTrxTransactions` (src/crypto/tron.ts:241-255): fetch
`v1/accounts/{address}/transactions`; on `success: false` throw an error
carrying the remote `error` message, otherwise return `data`. -/
def getTrxTransactions (env : Env) (address : String) :
    Except TronError (List String) :=
  let resp := env.accountTxs address
  if !resp.success then .error (.remoteAPI resp.error) else .ok resp.data

/-- Model of `getTrc20Transactions` (src/crypto/tron.ts:257-271): fetch
`v1/accounts/{address}/transactions/trc20`; on `success: false` throw an
error carrying the remote `error` message, otherwise return `data`. -/
def getTrc20Transactions (env : Env) (address : String) :
    Except TronError (List String) :=
  let resp := env.trc20Txs address
  if !resp.success then .error (.remoteAPI resp.error) else .ok resp.data

/-- A broadcast response spread together with the computed `amount`
(`return {...trx, amount}`, src/crypto/tron.ts:300-301, 341-342). -/
structure DrainReceipt where
  receipt : Receipt
  amount : Int
deriving DecidableEq

/-- Model of `drainTrx` (src/crypto/tron.ts:277-302): derive the sender address,
fetch the latest block and the balance, compute
`amount = sun - 10 ^ 6` with `BigNumber` (no guard of any kind),
construct the native transaction for that amount, broadcast it, and
return the response augmented with `amount`. -/
def drainTrx (env : Env) (privateKey dest : String) :
    List Event × Except TronError DrainReceipt :=
  let address := env.addrOfKey privateKey
  let sun := (getTrxBalance env address).sun
  let amount := sun - 10 ^ 6
  let tx := Tx.native address dest amount env.latestBlock
  ([.fetchBlock, .fetchAccount address, .construct tx, .broadcast tx],
    .ok ⟨env.broadcastResult tx, amount⟩)

/-- Model of `drainTRC20Token` (src/crypto/tron.ts:304-343): derive the sender
address, fetch the latest block and the full token balance; if a `backer`
key is supplied, first await `sendTrx` of 1 display unit from the backer
to the sender's address (an error there propagates and aborts the drain);
then construct the TRC20 transfer of the full balance, broadcast it, and
return the response augmented with `amount`. -/
def drainTRC20Token (env : Env) (privateKey dest contractAddress : String)
    (decimals : Nat) (backer : Option String) :
    List Event × Except TronError DrainReceipt :=
  let address := env.addrOfKey privateKey
  let amount := (getTRC20Balance env address contractAddress decimals).sun
  let base : List Event := [.fetchBlock, .fetchAccount address]
  match backer with
  | some backerKey =>
    match sendTrx env backerKey (env.addrOfKey privateKey) 1 with
    | (evs, .error e) => (base ++ evs, .error e)
    | (evs, .ok _) =>
      let tx := Tx.trc20 address contractAddress dest (amount : ℚ) env.latestBlock
      (base ++ evs ++ [.construct tx, .broadcast tx],
        .ok ⟨env.broadcastResult tx, amount⟩)
  | none =>
    let tx := Tx.trc20 address contractAddress dest (amount : ℚ) env.latestBlock
    (base ++ [.construct tx, .broadcast tx],
      .ok ⟨env.broadcastResult tx, amount⟩)

/-! ## Arithmetic helper lemmas -/

/-- Within the signed 32-bit range, `toInt32` is the identity. -/
lemma toInt32_eq_self (t : Int) (h1 : -2147483648 ≤ t) (h2 : t < 2147483648) :
    toInt32 t = t := by
  unfold toInt32
  split <;> omega

/-- Truncation toward zero of an integer is that integer. -/
lemma ratTrunc_intCast (n : Int) : ratTrunc ((n : ℚ)) = n := by
  unfold ratTrunc
  split
  · exact Int.floor_intCast n
  · exact Int.ceil_intCast n

/-- Truncation toward zero stays within an open symmetric bound. -/
lemma ratTrunc_bounds (q : ℚ) (h1 : -2147483648 < q) (h2 : q < 2147483648) :
    -2147483648 ≤ ratTrunc q ∧ ratTrunc q < 2147483648 := by
  unfold ratTrunc
  split
  case isTrue h =>
    have hnn : (0 : Int) ≤ ⌊q⌋ := Int.floor_nonneg.mpr h
    have hlt : ⌊q⌋ < (2147483648 : Int) := by
      rw [Int.floor_lt]
      exact_mod_cast h2
    omega
  case isFalse h =>
    push_neg at h
    have hgt : (-2147483648 : Int) < ⌈q⌉ := by
      rw [Int.lt_ceil]
      exact_mod_cast h1
    have hnp : ⌈q⌉ ≤ 0 := Int.ceil_le.mpr (by exact_mod_cast h.le)
    omega

/-! ## Float64 rounding lemmas -/

/-- Rounding an integer changes nothing. -/
lemma roundNE_intCast (n : Int) : roundNE ((n : ℚ)) = n := by
  unfold roundNE
  rw [Int.floor_intCast]
  norm_num

/-- Evaluation of `roundNE` when the fractional part is above one half. -/
lemma roundNE_eq_ceil (q : ℚ) (n : Int) (h1 : (n : ℚ) + 1 / 2 < q)
    (h2 : q < (n : ℚ) + 1) : roundNE q = n + 1 := by
  have hf : ⌊q⌋ = n := Int.floor_eq_iff.mpr ⟨by linarith, h2⟩
  unfold roundNE
  rw [hf, if_neg (by linarith), if_pos (by linarith)]

/-- Correctness of the binary-exponent recursion on a bracketed input. -/
lemma ilog2Aux_eq (fuel : Nat) : ∀ (q : ℚ) (L : Int), (2 : ℚ) ^ L ≤ q →
    q < (2 : ℚ) ^ (L + 1) → L.natAbs < fuel → ilog2Aux fuel q = L := by
  induction fuel with
  | zero =>
    intro q L h1 h2 hf
    exact absurd hf (Nat.not_lt_zero _)
  | succ fuel ih =>
    intro q L h1 h2 hf
    unfold ilog2Aux
    rcases lt_trichotomy L 0 with hL | hL | hL
    · have hq1 : q < 1 := by
        calc q < (2 : ℚ) ^ (L + 1) := h2
          _ ≤ (2 : ℚ) ^ (0 : Int) := zpow_le_zpow_right₀ one_le_two (by omega)
          _ = 1 := zpow_zero 2
      rw [if_pos hq1]
      have hb1 : (2 : ℚ) ^ (L + 1) ≤ q * 2 := by
        rw [zpow_add_one₀ (two_ne_zero : (2 : ℚ) ≠ 0)]
        exact mul_le_mul_of_nonneg_right h1 (by norm_num)
      have hb2 : q * 2 < (2 : ℚ) ^ (L + 1 + 1) := by
        rw [zpow_add_one₀ (two_ne_zero : (2 : ℚ) ≠ 0) (L + 1)]
        exact mul_lt_mul_of_pos_right h2 (by norm_num)
      rw [ih (q * 2) (L + 1) hb1 hb2 (by omega)]
      ring
    · subst hL
      have hge : (1 : ℚ) ≤ q := by
        have h := h1
        rwa [zpow_zero] at h
      have hlt : q < 2 := by
        have h := h2
        rwa [zero_add, zpow_one] at h
      rw [if_neg (not_lt.mpr hge), if_neg (not_le.mpr hlt)]
    · have hq2 : (2 : ℚ) ≤ q := by
        calc (2 : ℚ) = (2 : ℚ) ^ (1 : Int) := (zpow_one 2).symm
          _ ≤ (2 : ℚ) ^ L := zpow_le_zpow_right₀ one_le_two (by omega)
          _ ≤ q := h1
      rw [if_neg (not_lt.mpr (by linarith : (1 : ℚ) ≤ q)), if_pos hq2]
      have hL1 : L - 1 + 1 = L := by ring
      have hb1 : (2 : ℚ) ^ (L - 1) ≤ q / 2 := by
        rw [le_div_iff₀ (by norm_num : (0 : ℚ) < 2),
          ← zpow_add_one₀ (two_ne_zero : (2 : ℚ) ≠ 0), hL1]
        exact h1
      have hb2 : q / 2 < (2 : ℚ) ^ (L - 1 + 1) := by
        rw [hL1, div_lt_iff₀ (by norm_num : (0 : ℚ) < 2),
          ← zpow_add_one₀ (two_ne_zero : (2 : ℚ) ≠ 0)]
        exact h2
      rw [ih (q / 2) (L - 1) hb1 hb2 (by omega)]
      ring

/-- Characterisation of `ilog2` by bracketing between powers of 2. -/
lemma ilog2_eq_of (q : ℚ) (L : Int) (h1 : (2 : ℚ) ^ L ≤ q)
    (h2 : q < (2 : ℚ) ^ (L + 1)) (hf : L.natAbs < 1100) : ilog2 q = L :=
  ilog2Aux_eq 1100 q L h1 h2 hf

/-- Computation rule for `fl` at a positive argument with known binary
exponent and rounded significand. -/
lemma fl_pos_eval (q : ℚ) (L m : Int) (h0 : 0 < q)
    (hlog : ilog2 q = L)
    (hm : roundNE (q * 2 ^ (52 - L)) = m) :
    fl q = (m : ℚ) * 2 ^ (L - 52) := by
  unfold fl
  rw [if_neg (ne_of_gt h0), if_pos h0, hlog, hm]

/-- Rounding commutes with negation (IEEE-754 rounding is symmetric). -/
lemma fl_neg (q : ℚ) : fl (-q) = -fl q := by
  rcases lt_trichotomy q 0 with h | h | h
  · have e1 : fl (-q) =
        (roundNE (-q * 2 ^ (52 - ilog2 (-q))) : ℚ) * 2 ^ (ilog2 (-q) - 52) := by
      unfold fl
      rw [if_neg (neg_ne_zero.mpr (ne_of_lt h)), if_pos (neg_pos.mpr h)]
    have e2 : fl q =
        -((roundNE (-q * 2 ^ (52 - ilog2 (-q))) : ℚ) * 2 ^ (ilog2 (-q) - 52)) := by
      unfold fl
      rw [if_neg (ne_of_lt h), if_neg (not_lt.mpr (le_of_lt h))]
    rw [e1, e2, neg_neg]
  · subst h
    simp [fl]
  · have e1 : fl (-q) =
        -((roundNE (q * 2 ^ (52 - ilog2 q)) : ℚ) * 2 ^ (ilog2 q - 52)) := by
      unfold fl
      rw [if_neg (neg_ne_zero.mpr (ne_of_gt h)),
        if_neg (not_lt.mpr (neg_nonpos.mpr (le_of_lt h))), neg_neg]
    have e2 : fl q =
        (roundNE (q * 2 ^ (52 - ilog2 q)) : ℚ) * 2 ^ (ilog2 q - 52) := by
      unfold fl
      rw [if_neg (ne_of_gt h), if_pos h]
    rw [e1, e2]

/-- A positive rational with a 53-bit significand and a moderate binary
exponent is a float64 value and is rounded to itself. -/
lemma fl_of_pos_repr (m e : Int) (h0 : 0 < m) (hm : m < 2 ^ 53)
    (he : e.natAbs ≤ 1000) :
    fl ((m : ℚ) * 2 ^ e) = (m : ℚ) * 2 ^ e := by
  have hq0 : (0 : ℚ) < (m : ℚ) * 2 ^ e := by
    apply mul_pos
    · exact_mod_cast h0
    · positivity
  set L := Int.log 2 ((m : ℚ) * 2 ^ e) with hL
  have hc : (((2 : ℕ)) : ℚ) = (2 : ℚ) := by norm_num
  have hub : (m : ℚ) * 2 ^ e < (((2 : ℕ)) : ℚ) ^ (53 + e) := by
    have hm53 : (m : ℚ) < (2 : ℚ) ^ (53 : ℤ) := by
      have hpow : ((2 : ℚ)) ^ (53 : ℤ) = ((2 ^ 53 : Int) : ℚ) := by norm_num
      rw [hpow]
      exact_mod_cast hm
    calc (m : ℚ) * 2 ^ e < (2 : ℚ) ^ (53 : ℤ) * 2 ^ e :=
          mul_lt_mul_of_pos_right hm53 (by positivity)
      _ = (((2 : ℕ)) : ℚ) ^ (53 + e) := by
          rw [← zpow_add₀ (two_ne_zero : (2 : ℚ) ≠ 0)]
          norm_num
  have hLle : L ≤ 52 + e := by
    have h := (Int.lt_zpow_iff_log_lt one_lt_two hq0).mp hub
    omega
  have hLge : e ≤ L := by
    refine (Int.zpow_le_iff_le_log one_lt_two hq0).mp ?_
    rw [hc]
    calc (2 : ℚ) ^ e = 1 * (2 : ℚ) ^ e := (one_mul _).symm
      _ ≤ (m : ℚ) * 2 ^ e := by
          have h1m : (1 : ℤ) ≤ m := by omega
          exact mul_le_mul_of_nonneg_right (by exact_mod_cast h1m) (by positivity)
  have hbr1 : (2 : ℚ) ^ L ≤ (m : ℚ) * 2 ^ e := by
    have h := Int.zpow_log_le_self one_lt_two hq0
    rwa [← hL, hc] at h
  have hbr2 : (m : ℚ) * 2 ^ e < (2 : ℚ) ^ (L + 1) := by
    have h := Int.lt_zpow_succ_log_self one_lt_two ((m : ℚ) * 2 ^ e)
    rwa [← hL, hc] at h
  have hlog : ilog2 ((m : ℚ) * 2 ^ e) = L :=
    ilog2_eq_of _ L hbr1 hbr2 (by omega)
  have hknn : (0 : Int) ≤ e + 52 - L := by omega
  set k : Nat := (e + 52 - L).toNat with hkdef
  have hkz : ((k : Int)) = e + 52 - L := Int.toNat_of_nonneg hknn
  have hexp : e + (52 - L) = ((k : Int)) := by omega
  have hsc : (m : ℚ) * 2 ^ e * 2 ^ (52 - L) = ((m * 2 ^ k : Int) : ℚ) := by
    push_cast
    rw [mul_assoc, ← zpow_add₀ (two_ne_zero : (2 : ℚ) ≠ 0), hexp, zpow_natCast]
  have hrnd : roundNE ((m : ℚ) * 2 ^ e * 2 ^ (52 - L)) = m * 2 ^ k := by
    rw [hsc]
    exact roundNE_intCast _
  rw [fl_pos_eval ((m : ℚ) * 2 ^ e) L (m * 2 ^ k) hq0 hlog hrnd]
  have hexp2 : ((k : Int)) + (L - 52) = e := by omega
  push_cast
  rw [mul_assoc, ← zpow_natCast (2 : ℚ) k,
    ← zpow_add₀ (two_ne_zero : (2 : ℚ) ≠ 0), hexp2]

/-- Every rational of the form `m * 2 ^ e` with a 53-bit significand and
a moderate exponent is rounded to itself. -/
lemma fl_of_repr (m e : Int) (hm : m.natAbs < 2 ^ 53)
    (he : e.natAbs ≤ 1000) :
    fl ((m : ℚ) * 2 ^ e) = (m : ℚ) * 2 ^ e := by
  rcases lt_trichotomy m 0 with h | h | h
  · have hmb : -m < 2 ^ 53 := by omega
    have hpos := fl_of_pos_repr (-m) e (by omega) hmb he
    have hrw : (m : ℚ) * 2 ^ e = -(((-m : Int) : ℚ) * 2 ^ e) := by
      push_cast
      ring
    rw [hrw, fl_neg, hpos]
  · subst h
    simp [fl]
  · exact fl_of_pos_repr m e h (by omega) he

/-- Integers below `2 ^ 53` are exact float64 values. -/
lemma fl_intCast (n : Int) (hn : n.natAbs < 2 ^ 53) : fl ((n : ℚ)) = n := by
  have h := fl_of_repr n 0 hn (by norm_num)
  simpa using h

/-- Reduction of `parseTrx` when the exact scaled amount is an integer
small enough that the float64 multiplication is exact. -/
lemma parseTrx_int (trx : ℚ) (n : Int) (h : trx * 10 ^ 6 = (n : ℚ))
    (hn : n.natAbs < 2 ^ 53) : parseTrx trx = toInt32 n := by
  unfold parseTrx
  rw [h, fl_intCast n hn, ratTrunc_intCast]

/-- Concrete value: 1 TRX is 1000000 sun. -/
lemma parseTrx_one : parseTrx 1 = 1000000 := by
  rw [parseTrx_int 1 1000000 (by norm_num) (by norm_num)]
  decide

/-- Multiplying that double by `10 ^ 6` rounds up to exactly `2 ^ 31`. -/
lemma fl_two31_mul :
    fl ((4722366482869645 : ℚ) / 2 ^ 41 * 10 ^ 6) = 2147483648 := by
  have hq : (4722366482869645 : ℚ) / 2 ^ 41 * 10 ^ 6 =
      73786976294838203125 / 34359738368 := by norm_num
  rw [hq]
  have hlog : ilog2 ((73786976294838203125 : ℚ) / 34359738368) = 30 :=
    ilog2_eq_of _ 30 (by norm_num) (by norm_num) (by norm_num)
  have hrnd : roundNE ((73786976294838203125 : ℚ) / 34359738368 *
      2 ^ ((52 : Int) - 30)) = 9007199254740992 := by
    have h := roundNE_eq_ceil ((73786976294838203125 : ℚ) / 34359738368 *
      2 ^ ((52 : Int) - 30)) 9007199254740991 (by norm_num) (by norm_num)
    omega
  rw [fl_pos_eval _ 30 _ (by norm_num) hlog hrnd]
  norm_num

/-- C7: both transaction-history queries fail with a `RemoteAPIError`
carrying exactly the remote-reported message when the response has
`success: false`, and return the response data when `success` is true. -/
theorem c7_transactions (env : Env) (address : String) :
    ((env.accountTxs address).success = false →
      getTrxTransactions env address =
        .error (.remoteAPI (env.accountTxs address).error)) ∧
    ((env.accountTxs address).success = true →
      getTrxTransactions env address = .ok (env.accountTxs address).data) ∧
    ((env.trc20Txs address).success = false →
      getTrc20Transactions env address =
        .error (.remoteAPI (env.trc20Txs address).error)) ∧
    ((env.trc20Txs address).success = true →
      getTrc20Transactions env address = .ok (env.trc20Txs address).data) := by
  refine ⟨fun h => ?_, fun h => ?_, fun h => ?_, fun h => ?_⟩ <;>
    simp [getTrxTransactions, getTrc20Transactions, h]

/-- Environment whose history endpoints answer `{success: false, error: "x"}`. -/
def envFail : Env :=
  ⟨fun k => k, ⟨"h", 0, 0⟩, fun _ => [],
    fun _ => ⟨[], false, "x"⟩, fun _ => ⟨[], false, "x"⟩, fun _ => ⟨"r"⟩⟩

/-- C7 (witness): on the response `{success: false, error: "x"}` both
queries raise with message "x". -/
theorem c7_transactions_witness :
    getTrxTransactions envFail "a" = .error (.remoteAPI "x") ∧
    getTrc20Transactions envFail "a" = .error (.remoteAPI "x") :=
  ⟨(c7_transactions envFail "a").1 rfl, (c7_transactions envFail "a").2.2.1 rfl⟩

/-! ## Claim C8: missing account record means zero balance -/

/-- C8: when the remote account lookup returns an empty record list,
`getTrxBalance` returns the zero amount rather than an error. -/
theorem c8_balance_no_account (env : Env) (address : String)
    (h : env.accounts address = []) :
    getTrxBalance env address = ⟨0, 0⟩ := by
  simp [getTrxBalance, h]

/-- Environment with no account records at all. -/
def envEmpty : Env :=
  ⟨fun k => k, ⟨"h", 0, 0⟩, fun _ => [],
    fun _ => ⟨[], true, ""⟩, fun _ => ⟨[], true, ""⟩, fun _ => ⟨"r"⟩⟩

/-- C8 (witness): zero balance on an address with no account record. -/
theorem c8_balance_no_account_witness : getTrxBalance envEmpty "a" = ⟨0, 0⟩ :=
  c8_balance_no_account envEmpty "a" rfl

/-! ## Claim C10: parseTrx truncates the float64 product -/

/-- C10 (counterexample): the claim fails at the float64 number nearest
2147.483648, the double `4722366482869645 / 2 ^ 41`.  Its exact scaled
value is just below `2 ^ 31` — strictly inside the claimed range, with
integer part 2147483647 — but the float64 multiplication rounds the
product up to exactly `2 ^ 31`, and the bitwise truncation then wraps
the result to -2147483648. -/
theorem c10_parseTrx_trunc_counterexample :
    (-2147483648 < (4722366482869645 : ℚ) / 2 ^ 41 * 10 ^ 6 ∧
      (4722366482869645 : ℚ) / 2 ^ 41 * 10 ^ 6 < 2147483648) ∧
    parseTrx ((4722366482869645 : ℚ) / 2 ^ 41) ≠
      ratTrunc ((4722366482869645 : ℚ) / 2 ^ 41 * 10 ^ 6) := by
  refine ⟨⟨by norm_num, by norm_num⟩, ?_⟩
  have h1 : parseTrx ((4722366482869645 : ℚ) / 2 ^ 41) = -2147483648 := by
    unfold parseTrx
    rw [fl_two31_mul,
      show (2147483648 : ℚ) = ((2147483648 : Int) : ℚ) by norm_num,
      ratTrunc_intCast]
    decide
  have h2 : ratTrunc ((4722366482869645 : ℚ) / 2 ^ 41 * 10 ^ 6) = 2147483647 := by
    unfold ratTrunc
    rw [if_pos (by norm_num)]
    exact Int.floor_eq_iff.mpr ⟨by norm_num, by norm_num⟩
  rw [h1, h2]
  decide

/-- C10 (amended): `parseTrx` truncates the float64 product: it returns
`fl (d * 10 ^ 6)` truncated toward zero through the 32-bit bitwise
reduction; whenever that float product lies strictly inside the signed
32-bit range the result is exactly its integer part, and whenever the
exact product `d * 10 ^ 6` is an integer in that range — so the float64
multiplication is exact — the result is exactly that integer. -/
theorem c10_parseTrx_trunc (d : ℚ) :
    parseTrx d = toInt32 (ratTrunc (fl (d * 10 ^ 6))) ∧
    (-2147483648 < fl (d * 10 ^ 6) → fl (d * 10 ^ 6) < 2147483648 →
      parseTrx d = ratTrunc (fl (d * 10 ^ 6))) ∧
    (∀ n : Int, d * 10 ^ 6 = (n : ℚ) → -2147483648 < n → n < 2147483648 →
      parseTrx d = n) := by
  refine ⟨rfl, fun h1 h2 => ?_, fun n hn hn1 hn2 => ?_⟩
  · obtain ⟨b1, b2⟩ := ratTrunc_bounds _ h1 h2
    unfold parseTrx
    exact toInt32_eq_self _ b1 b2
  · have hn53 : n.natAbs < 2 ^ 53 := by
      have hb : n.natAbs < 2147483648 := by omega
      calc n.natAbs < 2147483648 := hb
        _ < 2 ^ 53 := by norm_num
    rw [parseTrx_int d n hn hn53]
    exact toInt32_eq_self n (by omega) hn2

/-- C10 (witness): at d = 3/2 the float product is exactly 1500000, in
range, and `parseTrx` returns it. -/
theorem c10_parseTrx_trunc_witness : parseTrx (3 / 2) = 1500000 :=
  (c10_parseTrx_trunc (3 / 2)).2.2 1500000 (by norm_num) (by norm_num) (by norm_num)

/-! ## Claim C4: drainTrx amount arithmetic and receipt shape -/

/-- C4: `drainTrx` computes the send amount as the fetched balance minus
the fixed reserve `10 ^ 6`, passes exactly that amount to transaction
construction and broadcast, and returns the broadcast result augmented
with an `amount` field equal to that value. -/
theorem c4_drain_amount (env : Env) (pk dest : String) :
    (drainTrx env pk dest).2 =
      .ok ⟨env.broadcastResult
            (Tx.native (env.addrOfKey pk) dest
              ((getTrxBalance env (env.addrOfKey pk)).sun - 10 ^ 6)
              env.latestBlock),
          (getTrxBalance env (env.addrOfKey pk)).sun - 10 ^ 6⟩ ∧
    Event.construct (Tx.native (env.addrOfKey pk) dest
        ((getTrxBalance env (env.addrOfKey pk)).sun - 10 ^ 6) env.latestBlock) ∈
      (drainTrx env pk dest).1 ∧
    Event.broadcast (Tx.native (env.addrOfKey pk) dest
        ((getTrxBalance env (env.addrOfKey pk)).sun - 10 ^ 6) env.latestBlock) ∈
      (drainTrx env pk dest).1 := by
  refine ⟨rfl, ?_, ?_⟩ <;> simp [drainTrx]

/-- Environment whose single account holds 2000000 sun. -/
def envTwoCoins : Env :=
  ⟨fun k => String.append "addr-" k, ⟨"h", 0, 0⟩,
    fun _ => [⟨2000000, []⟩],
    fun _ => ⟨[], true, ""⟩, fun _ => ⟨[], true, ""⟩, fun _ => ⟨"r"⟩⟩

/-- C4 (witness): on a balance of 2000000 sun the drained amount is
exactly 1000000 sun. -/
theorem c4_drain_amount_witness :
    (drainTrx envTwoCoins "k" "d").2 =
      .ok ⟨envTwoCoins.broadcastResult
            (Tx.native (envTwoCoins.addrOfKey "k") "d" 1000000
              envTwoCoins.latestBlock),
          1000000⟩ :=
  (c4_drain_amount envTwoCoins "k" "d").1

/-! ## Claim C6: drainTrx has no balance guard -/

/-- C6: `drainTrx` performs no balance guard: for every fetched balance it
never returns an error, it broadcasts a transaction whose amount is
`balance - 10 ^ 6`, and for balances at or below the reserve that amount
is zero or negative. -/
theorem c6_drain_no_guard (env : Env) (pk dest : String) :
    (∀ e, (drainTrx env pk dest).2 ≠ .error e) ∧
    (drainTrx env pk dest).2 =
      .ok ⟨env.broadcastResult
            (Tx.native (env.addrOfKey pk) dest
              ((getTrxBalance env (env.addrOfKey pk)).sun - 10 ^ 6)
              env.latestBlock),
          (getTrxBalance env (env.addrOfKey pk)).sun - 10 ^ 6⟩ ∧
    Event.broadcast (Tx.native (env.addrOfKey pk) dest
        ((getTrxBalance env (env.addrOfKey pk)).sun - 10 ^ 6) env.latestBlock) ∈
      (drainTrx env pk dest).1 ∧
    ((getTrxBalance env (env.addrOfKey pk)).sun ≤ 10 ^ 6 →
      (getTrxBalance env (env.addrOfKey pk)).sun - 10 ^ 6 ≤ 0) := by
  refine ⟨fun e => ?_, rfl, ?_, fun h => by omega⟩
  · simp [drainTrx]
  · simp [drainTrx]

/-- Environment whose single account holds 500000 sun, below the
1000000-sun reserve. -/
def envLow : Env :=
  ⟨fun k => String.append "addr-" k, ⟨"h", 0, 0⟩,
    fun _ => [⟨500000, []⟩],
    fun _ => ⟨[], true, ""⟩, fun _ => ⟨[], true, ""⟩, fun _ => ⟨"r"⟩⟩

/-- C6 (witness): with a balance of 500000 sun, below the reserve,
`drainTrx` still does not raise; the computed amount is nonpositive. -/
theorem c6_drain_no_guard_witness :
    (drainTrx envLow "k" "d").2 ≠ .error .insufficientBalance ∧
    (getTrxBalance envLow (envLow.addrOfKey "k")).sun - 10 ^ 6 ≤ 0 :=
  ⟨(c6_drain_no_guard envLow "k" "d").1 .insufficientBalance,
    (c6_drain_no_guard envLow "k" "d").2.2.2 (by norm_num [getTrxBalance, envLow])⟩

/-! ## Claim C1: the insufficient-balance guard of both send paths -/

/-- Environment whose single account holds 100 base units of the token at
contract "c". -/
def envTok : Env :=
  ⟨fun k => String.append "addr-" k, ⟨"h", 0, 0⟩,
    fun _ => [⟨0, [⟨"c", 100⟩]⟩],
    fun _ => ⟨[], true, ""⟩, fun _ => ⟨[], true, ""⟩, fun _ => ⟨"r"⟩⟩

/-- C3 (counterexample): with caller-supplied decimals = 2 and a matched
entry of 100 base units, the claim demands a display value of
100 / 10 ^ 2 = 1, but `getTRC20Balance` returns 100 / 10 ^ 6. -/
theorem c3_token_display_counterexample :
    ¬ ((getTRC20Balance envTok "a" "c" 2).trx =
        ((getTRC20Balance envTok "a" "c" 2).sun : ℚ) / 10 ^ 2) := by
  have h : getTRC20Balance envTok "a" "c" 2 = ⟨100, ((100 : Int) : ℚ) / 10 ^ 6⟩ := by
    simp [getTRC20Balance, envTok]
  rw [h]
  norm_num

/-- C3 (amended): for every token-balance query that finds a matching
token entry, the returned display value is the entry's base-unit value
divided by `10 ^ 6`, regardless of the caller-supplied `decimals`
argument (the claimed invariant `displayUnits = baseUnits / 10 ^ decimals`
holds only when `decimals = 6`). -/
theorem c3_token_display (env : Env) (a c : String) (d : Nat)
    (acct : AccountRecord) (rest : List AccountRecord) (t : TokenEntry)
    (h1 : env.accounts a = acct :: rest)
    (h2 : acct.trc20.find? (fun e => e.contractAddress == c) = some t) :
    getTRC20Balance env a c d = ⟨t.value, (t.value : ℚ) / 10 ^ 6⟩ := by
  have hne : acct.trc20.isEmpty = false := by
    cases htl : acct.trc20 with
    | nil => rw [htl] at h2; simp at h2
    | cons x xs => simp [htl]
  simp [getTRC20Balance, h1, hne, h2]

/-- C3 (witness): the matched entry of 100 base units is reported as
100 / 10 ^ 6 display units even though decimals = 2 was supplied. -/
theorem c3_token_display_witness :
    getTRC20Balance envTok "a" "c" 2 = ⟨100, ((100 : Int) : ℚ) / 10 ^ 6⟩ :=
  c3_token_display envTok "a" "c" 2 ⟨0, [⟨"c", 100⟩]⟩ [] ⟨"c", 100⟩ rfl rfl

/-! ## Claim C9: token-balance scan semantics -/

/-- C9: `getTRC20Balance` returns zero when the account has no record, an
empty token list, or no entry whose contract address matches exactly
(string equality, hence case-sensitive); when the scan finds a first
matching entry it returns that entry's base-unit value. -/
theorem c9_token_scan (env : Env) (a c : String) (d : Nat) :
    (env.accounts a = [] → getTRC20Balance env a c d = ⟨0, 0⟩) ∧
    (∀ acct rest, env.accounts a = acct :: rest →
      (acct.trc20 = [] → getTRC20Balance env a c d = ⟨0, 0⟩) ∧
      (acct.trc20.find? (fun e => e.contractAddress == c) = none →
        getTRC20Balance env a c d = ⟨0, 0⟩) ∧
      (∀ t, acct.trc20.find? (fun e => e.contractAddress == c) = some t →
        (getTRC20Balance env a c d).sun = t.value ∧ t.contractAddress = c)) := by
  refine ⟨fun h => by simp [getTRC20Balance, h], fun acct rest h1 => ⟨?_, ?_, ?_⟩⟩
  · intro h2
    simp [getTRC20Balance, h1, h2]
  · intro h2
    rcases Bool.eq_false_or_eq_true acct.trc20.isEmpty with h3 | h3 <;>
      simp [getTRC20Balance, h1, h2, h3]
  · intro t h2
    have hne : acct.trc20.isEmpty = false := by
      cases htl : acct.trc20 with
      | nil => rw [htl] at h2; simp at h2
      | cons x xs => simp [htl]
    have hmem := List.find?_some h2
    refine ⟨by simp [getTRC20Balance, h1, hne, h2], by simpa using hmem⟩

/-- Environment whose single account has one token entry at the
lower-case contract address "abc". -/
def envCase : Env :=
  ⟨fun k => String.append "addr-" k, ⟨"h", 0, 0⟩,
    fun _ => [⟨0, [⟨"abc", 7⟩]⟩],
    fun _ => ⟨[], true, ""⟩, fun _ => ⟨[], true, ""⟩, fun _ => ⟨"r"⟩⟩

/-- C9 (witness): querying the upper-case contract "ABC" against a list
holding only "abc" matches nothing — the comparison is case-sensitive —
and yields the zero amount. -/
theorem c9_token_scan_witness :
    getTRC20Balance envCase "a" "ABC" 6 = ⟨0, 0⟩ :=
  ((c9_token_scan envCase "a" "ABC" 6).2 ⟨0, [⟨"abc", 7⟩]⟩ [] rfl).2.1 rfl

/-! ## Claim C5: backer micro-transfer sequencing in drainTRC20Token -/

/-- Trace of a successful `sendTrx`: the two fetches, then construction
and broadcast of the native transfer. -/
lemma sendTrx_ok_events (env : Env) (pk dest : String) (q : ℚ) (r : Receipt)
    (h : (sendTrx env pk dest q).2 = .ok r) :
    (sendTrx env pk dest q).1 =
      [.fetchBlock, .fetchAccount (env.addrOfKey pk),
        .construct (Tx.native (env.addrOfKey pk) dest (parseTrx q)
          env.latestBlock),
        .broadcast (Tx.native (env.addrOfKey pk) dest (parseTrx q)
          env.latestBlock)] := by
  by_cases hb : (getTrxBalance env (env.addrOfKey pk)).sun ≤ parseTrx q
  · simp [sendTrx, hb] at h
  · simp [sendTrx, hb]

/-- No event of a `sendTrx` call touches a TRC20 transaction. -/
lemma sendTrx_events_not_trc20 (env : Env) (pk dest : String) (q : ℚ) :
    ∀ ev ∈ (sendTrx env pk dest q).1, ev.isTrc20Action = false := by
  intro ev hev
  by_cases hb : (getTrxBalance env (env.addrOfKey pk)).sun ≤ parseTrx q <;>
    simp [sendTrx, hb] at hev <;>
    rcases hev with h | h | h | h <;>
    simp_all [Event.isTrc20Action]

/-- C5: in `drainTRC20Token` with a supplied backer key, a native
transfer of exactly 1 display unit from the backer's wallet to the
sender's address is performed strictly before the token transfer is
constructed; if that backer transfer fails, the error propagates and no
token transaction is constructed or broadcast; with no backer, no native
transfer occurs at all. -/
theorem c5_backer_sequencing (env : Env) (pk dest contract bk : String)
    (d : Nat) :
    (∀ e, (sendTrx env bk (env.addrOfKey pk) 1).2 = .error e →
      (drainTRC20Token env pk dest contract d (some bk)).2 = .error e ∧
      ∀ ev ∈ (drainTRC20Token env pk dest contract d (some bk)).1,
        ev.isTrc20Action = false) ∧
    (∀ r, (sendTrx env bk (env.addrOfKey pk) 1).2 = .ok r →
      ∃ i j, i < j ∧
        (drainTRC20Token env pk dest contract d (some bk)).1.get? i =
          some (.broadcast (Tx.native (env.addrOfKey bk) (env.addrOfKey pk)
            (parseTrx 1) env.latestBlock)) ∧
        (drainTRC20Token env pk dest contract d (some bk)).1.get? j =
          some (.construct (Tx.trc20 (env.addrOfKey pk) contract dest
            ((getTRC20Balance env (env.addrOfKey pk) contract d).sun : ℚ)
            env.latestBlock))) ∧
    (∀ ev ∈ (drainTRC20Token env pk dest contract d none).1,
      ev.isNativeAction = false) := by
  refine ⟨fun e he => ?_, fun r hr => ?_, ?_⟩
  · rcases hs : sendTrx env bk (env.addrOfKey pk) 1 with ⟨evs, res⟩
    rw [hs] at he
    simp only at he
    subst he
    have hnt := sendTrx_events_not_trc20 env bk (env.addrOfKey pk) 1
    rw [hs] at hnt
    simp only at hnt
    constructor
    · simp [drainTRC20Token, hs]
    · intro ev hev
      simp only [drainTRC20Token, hs, List.mem_append, List.mem_cons,
        List.not_mem_nil, or_false] at hev
      rcases hev with (h | h) | h
      · subst h; rfl
      · subst h; rfl
      · exact hnt ev h
  · have hevs := sendTrx_ok_events env bk (env.addrOfKey pk) 1 r hr
    rcases hs : sendTrx env bk (env.addrOfKey pk) 1 with ⟨evs, res⟩
    rw [hs] at hevs hr
    simp only at hevs hr
    subst hevs
    subst hr
    refine ⟨5, 6, by omega, ?_, ?_⟩ <;> simp [drainTRC20Token, hs]
  · intro ev hev
    simp only [drainTRC20Token, List.mem_append, List.mem_cons,
      List.not_mem_nil, or_false] at hev
    rcases hev with (h | h) | h | h <;> subst h <;> rfl

/-- Environment with no account records, so the backer's balance is zero
and its micro-transfer is rejected by the guard. -/
def envPoorBacker : Env :=
  ⟨fun k => String.append "addr-" k, ⟨"h", 0, 0⟩, fun _ => [],
    fun _ => ⟨[], true, ""⟩, fun _ => ⟨[], true, ""⟩, fun _ => ⟨"r"⟩⟩

/-- C5 (witness): when the backer transfer fails, the drain fails with the
same error and its trace holds no TRC20 construction or broadcast. -/
theorem c5_backer_sequencing_witness :
    (drainTRC20Token envPoorBacker "k" "d" "c" 6 (some "bk")).2 =
      .error .insufficientBalance ∧
    ∀ ev ∈ (drainTRC20Token envPoorBacker "k" "d" "c" 6 (some "bk")).1,
      ev.isTrc20Action = false :=
  (c5_backer_sequencing envPoorBacker "k" "d" "c" "bk" 6).1 .insufficientBalance
    (by simp [sendTrx, getTrxBalance, envPoorBacker, parseTrx_one])

end Tron
